import Mathlib

/-!
Verification of the work-item resolution and chunked aggregation pipeline of the
genaisrc repository.

JavaScript strings are modelled as lists of characters (`JStr`).  The external
collaborators (git, the model invocation, the glob matcher) are modelled as
oracles passed in explicitly, following the interface boundary of the design:
the embedding only fixes the control logic that lives in the repository.

Sources embedded here:
* packages/utility/src/utility.ts (filterFiles, filterFilesByGlob, getArray,
  getFiles, stageFiles, envBoolean, envNumber)
* packages/message/src/message.genai.mts (the chunked commit-message pipeline)
* the gcm-style variant kept in packages/style/src/style.genai.mts
  (parseBoolean, config resolution, ceiling confirmation, chunk loop)
* the env-configured message variant (envNumber based chunk configuration)
* packages/commit/src/commit.genai.mts (boolean feature flags)
-/

/-- A JavaScript string, modelled as its list of characters. -/
abbrev JStr := List Char

/-- Whitespace test used by the model of the JavaScript trim functions
(ASCII whitespace; the scripts only ever trim model output and diffs). -/
def jsWs (c : Char) : Bool := c.isWhitespace

/-- Model of the left half of JavaScript String.prototype.trim. -/
def jsTrimLeft (s : JStr) : JStr := s.dropWhile jsWs

/-- Model of the right half of JavaScript String.prototype.trim. -/
def jsTrimRight (s : JStr) : JStr := (s.reverse.dropWhile jsWs).reverse

/-- Model of JavaScript String.prototype.trim. -/
def jsTrim (s : JStr) : JStr := jsTrimRight (jsTrimLeft s)

/-- Model of JavaScript String.prototype.toLowerCase (ASCII case folding). -/
def jsLower (s : JStr) : JStr := s.map Char.toLower

/-- Accumulator-passing core of the model of String.prototype.split with a
single-character separator. -/
def jsSplitAux (sep : Char) : JStr → JStr → List JStr
  | [], acc => [acc.reverse]
  | c :: rest, acc =>
      if c = sep then acc.reverse :: jsSplitAux sep rest []
      else jsSplitAux sep rest (c :: acc)

/-- Model of JavaScript String.prototype.split with a single-character
separator: always returns at least one (possibly empty) piece. -/
def jsSplit (sep : Char) (s : JStr) : List JStr := jsSplitAux sep s []

/-- utility.ts line 20: filename.split(".").pop()?.toLowerCase() or-else "".
pop on the non-empty split result is its last element; the or-else only fires
for the empty last component, which toLowerCase already maps to itself. -/
def jsExt (filename : JStr) : JStr := jsLower ((jsSplit '.' filename).getLastD [])

/-- A file handed to the resolver: utility.ts supports both plain string
filenames and file objects carrying a filename property. -/
inductive FileRef : Type
  | str (s : JStr)
  | obj (filename : JStr)
deriving DecidableEq, Repr

/-- utility.ts line 18: typeof file === "string" ? file : file.filename. -/
def FileRef.filename : FileRef → JStr
  | .str s => s
  | .obj f => f

/-- utility.ts filterFiles (lines 13-27): extension allow/deny filtering.
Keyword avoidance: the include parameter is spelled include_. -/
def filterFiles (files : List FileRef) (include_ exclude : List JStr) : List FileRef :=
  if files.length = 0 then []
  else if include_.length = 0 ∧ exclude.length = 0 then files
  else files.filter fun file =>
    let ext := jsExt file.filename
    let isIncluded := include_.length = 0 ∨ ext ∈ include_
    let isExcluded := exclude.length > 0 ∧ ext ∈ exclude
    isIncluded ∧ ¬ isExcluded

/-- Truthiness of an optional JavaScript string: undefined and "" are falsy. -/
def strTruthy : Option JStr → Bool
  | none => false
  | some [] => false
  | some (_ :: _) => true

/-- utility.ts filterFilesByGlob (lines 40-63).  The external minimatch
library is passed in as the oracle mm (path → pattern → matches). -/
def filterFilesByGlob (mm : JStr → JStr → Bool)
    (files : List FileRef) (includePattern excludePattern : Option JStr) : List FileRef :=
  if files.length = 0 then []
  else files.filter fun file =>
    let filename := file.filename
    if strTruthy includePattern ∧ ¬ mm filename (includePattern.getD []) then false
    else if strTruthy excludePattern ∧ mm filename (excludePattern.getD []) then false
    else true

/-- utility.ts getArray (lines 71-76): undefined for empty input, else the
array itself (undefined input is modelled as the empty list). -/
def getArray (array : List FileRef) : Option (List FileRef) :=
  if array.length = 0 then none else some array

/-- utility.ts envBoolean (lines 185-198), applied to the raw value of the
environment variable (the source reads process.env[key] first). -/
def envBoolean (value : Option JStr) : Bool :=
  match value with
  | none => false
  | some v =>
      if v.length = 0 then false
      else if jsLower v = ("true".toList) then true
      else if jsLower v = ("false".toList) then false
      else false

/-- Model of JavaScript Number(...) restricted to the integer literals the
scripts configure (optional sign followed by decimal digits); every other
string is NaN, modelled as none.  Leading or trailing whitespace and
non-integer forms are not produced by the claims evaluated below. -/
def jsToNumber (s : JStr) : Option Int :=
  match s with
  | '-' :: rest =>
      if rest ≠ [] ∧ rest.all Char.isDigit
      then some (-(Int.ofNat (Nat.ofDigits 10 ((rest.map Char.toNat).map (· - 48)).reverse)))
      else none
  | _ =>
      if s ≠ [] ∧ s.all Char.isDigit
      then some (Int.ofNat (Nat.ofDigits 10 ((s.map Char.toNat).map (· - 48)).reverse))
      else none

/-- utility.ts envNumber (lines 200-208): 0 for undefined, null or empty,
the parsed number otherwise, and 0 again when the conversion is NaN. -/
def envNumber (value : Option JStr) : Int :=
  match value with
  | none => 0
  | some v =>
      if v.length = 0 then 0
      else (jsToNumber v).getD 0

/-- The value bound to the local variable files in getFiles (utility.ts lines
104-107).  JavaScript distinguishes a real array, the unawaited Promise that
stageFiles() returns (the call is not awaited in the source), and the literal
false produced when stageAll is disabled. -/
inductive FilesVal : Type
  | arr (fs : List FileRef)
  | pending (fs : List FileRef)
  | fls
deriving DecidableEq, Repr

/-- State of the external git collaborator, as seen through the calls getFiles
makes: env.files, the staged list, and the staged list observed after the
auto-stage fallback runs git add -A. -/
structure GitEnv : Type where
  envFiles : List FileRef
  staged : List FileRef
  stagedAfterAddAll : List FileRef
  stagedAfterAddPaths : List JStr → List FileRef
  stageAllVar : Option JStr

/-- Collaborator calls made during one resolution, for stating the precedence
claims: whether git.listFiles("staged") ran and whether the auto-stage
fallback (git add -A) ran. -/
structure GitLog : Type where
  listedStaged : Bool
  ranAddAll : Bool
deriving DecidableEq, Repr

/-- utility.ts stageFiles (lines 134-147): with files it stages each given
filename individually, otherwise it stages everything (git add -A); both
branches then return git.listFiles("staged"), modelled by the corresponding
oracle field of the environment. -/
def stageFiles (g : GitEnv) (files : List FileRef) : List FileRef :=
  if files.length > 0 then g.stagedAfterAddPaths (files.map FileRef.filename)
  else g.stagedAfterAddAll

/-- Extension-filter step of getFiles on the raw files value.  A real array
goes through filterFiles; false is falsy and yields []; the pending Promise is
truthy, has no length, and crashes on .filter unless both lists are empty, in
which case line 15 returns it unchanged. -/
def filterFilesVal (files : FilesVal) (include_ exclude : List JStr) :
    Except JStr FilesVal :=
  match files with
  | .fls => .ok (.arr [])
  | .arr fs => .ok (.arr (filterFiles fs include_ exclude))
  | .pending fs =>
      if include_.length = 0 ∧ exclude.length = 0 then .ok (.pending fs)
      else .error ("TypeError: files.filter is not a function".toList)

/-- Glob-filter step of getFiles on the raw files value; the pending Promise
always reaches .filter here and crashes. -/
def filterFilesByGlobVal (mm : JStr → JStr → Bool) (files : FilesVal)
    (includePattern excludePattern : Option JStr) : Except JStr FilesVal :=
  match files with
  | .fls => .ok (.arr [])
  | .arr fs => .ok (.arr (filterFilesByGlob mm fs includePattern excludePattern))
  | .pending _ => .error ("TypeError: files.filter is not a function".toList)

/-- Resolution of the value an async JavaScript function returns: returning a
Promise resolves it, so the pending staged list is flattened; false is
unreachable here because both filters map it to []. -/
def awaitFilesVal : FilesVal → List FileRef
  | .arr fs => fs
  | .pending fs => fs
  | .fls => []

/-- utility.ts getFiles (lines 87-124).  The three candidate sources are
combined with short-circuiting JavaScript or, so git.listFiles and the
auto-stage fallback only run when every higher-priority source was empty;
then either glob filtering (when either pattern is truthy) or extension
filtering is applied, and the async return awaits any pending Promise. -/
def getFiles (mm : JStr → JStr → Bool) (g : GitEnv)
    (include_ exclude : List JStr) (includePattern excludePattern : Option JStr) :
    GitLog × Except JStr (List FileRef) :=
  let stageAll := envBoolean g.stageAllVar
  let (log, files) : GitLog × FilesVal :=
    match getArray g.envFiles with
    | some fs => (⟨false, false⟩, .arr fs)
    | none =>
        match getArray g.staged with
        | some fs => (⟨true, false⟩, .arr fs)
        | none =>
            if stageAll then (⟨true, true⟩, .pending (stageFiles g []))
            else (⟨true, false⟩, .fls)
  let filtered : Except JStr FilesVal :=
    if strTruthy includePattern ∨ strTruthy excludePattern then
      filterFilesByGlobVal mm files includePattern excludePattern
    else
      filterFilesVal files include_ exclude
  (log, filtered.map awaitFilesVal)

/-- Boolean feature flags read by packages/commit/src/commit.genai.mts
(lines 24-57): stage-all, push-after-commit and deploy, each resolved through
envBoolean over the raw environment. -/
structure CommitFlags : Type where
  stage : Bool
  push : Bool
  deploy : Bool
deriving DecidableEq, Repr

/-- commit.genai.mts flag wiring: each flag is envBoolean of its variable. -/
def commitFlags (envMap : JStr → Option JStr) : CommitFlags where
  stage := envBoolean (envMap ("GENAISCRIPT_COMMIT_STAGE".toList))
  push := envBoolean (envMap ("GENAISCRIPT_COMMIT_PUSH".toList))
  deploy := envBoolean (envMap ("GENAISCRIPT_COMMIT_DEPLOY".toList))

/-- Result of one call to the external model-invocation collaborator
(runPrompt): the truthiness of its error field, the contents of its fenced
blocks, and its plain text. -/
structure PromptResult : Type where
  error : Bool
  fences : List JStr
  text : JStr
deriving DecidableEq, Repr

/-- result.fences?.[0]?.content or-else result.text: the first fenced block
when present and non-empty (empty content is falsy), otherwise the text. -/
def fenceOrText (r : PromptResult) : JStr :=
  match r.fences with
  | [] => r.text
  | c :: _ => if c.length = 0 then r.text else c

namespace Message

/-- message.genai.mts line 186: the chunk size constant. -/
def chunkSize : Nat := 10000

/-- message.genai.mts line 187: the chunk ceiling constant, declared as a
safeguard against huge commits. -/
def maxChunks : Nat := 4

/-- Observable events of one message-pipeline run: the chunks handed to the
per-chunk prompt, the chunks whose prompt reported an error (logged via
console.error), and the texts handed to the summary prompt. -/
structure Log : Type where
  processedChunks : List JStr
  chunkErrors : List JStr
  summarizeInputs : List JStr
deriving DecidableEq, Repr

/-- Accumulator of the chunk loop: processed chunks, failed chunks, and the
message string built by the loop. -/
structure Acc : Type where
  processed : List JStr
  errs : List JStr
  message : JStr
deriving DecidableEq, Repr

/-- message.genai.mts lines 199-246: for each chunk in order run the prompt;
on error log the chunk and continue, otherwise append the trimmed fence-or-
text output plus a newline.  The imperative loop appends left to right; this
recursion produces that concatenation by prepending each contribution to the
result for the remaining chunks. -/
def chunkLoop (processChunk : JStr → PromptResult) : List JStr → Acc
  | [] => ⟨[], [], []⟩
  | chunk :: rest =>
      let result := processChunk chunk
      let acc := chunkLoop processChunk rest
      { processed := chunk :: acc.processed
        errs := (if result.error then [chunk] else []) ++ acc.errs
        message :=
          (if result.error then [] else jsTrim (fenceOrText result) ++ ['\n'])
            ++ acc.message }

/-- message.genai.mts lines 190-303, from the chunk list produced by the
external splitter to the commit: runs the chunk loop, trims the accumulated
message into commitMessage, runs the summary prompt only when more than one
chunk was produced (keeping commitMessage on summary error, replacing it by
the trimmed summary output otherwise), aborts without committing when the
final message is empty, and otherwise commits it.  The returned option is the
committed message. -/
def run (chunks : List JStr) (processChunk summarize : JStr → PromptResult) :
    Log × Option JStr :=
  let acc := chunkLoop processChunk chunks
  let commitMessage := jsTrim acc.message
  let (sumInputs, commitMessage) :=
    if chunks.length > 1 then
      let summaryResult := summarize acc.message
      ([acc.message],
        if summaryResult.error then commitMessage
        else jsTrim (fenceOrText summaryResult))
    else ([], commitMessage)
  (⟨acc.processed, acc.errs, sumInputs⟩,
    if commitMessage.length = 0 then none else some commitMessage)

end Message

namespace Gcm

/-- gcm-style script, style.genai.mts line 345: isDefined. -/
def isDefined (value : Option JStr) : Bool := value.isSome

/-- gcm-style script, style.genai.mts lines 347-351: parseBoolean returns
true for "true", false for "false", and throws for every other value. -/
def parseBoolean (value : Option JStr) : Except JStr Bool :=
  if value = some ("true".toList) then .ok true
  else if value = some ("false".toList) then .ok false
  else .error ("Invalid value".toList)

/-- Model of JavaScript parseInt on base 10: skip leading whitespace, read an
optional sign and then the longest digit run; NaN (none) when no digit is
read. -/
def jsParseInt (s : JStr) : Option Int :=
  let t := s.dropWhile jsWs
  let (neg, digits) : Bool × JStr :=
    match t with
    | '-' :: rest => (true, rest)
    | '+' :: rest => (false, rest)
    | _ => (false, t)
  let run := digits.takeWhile Char.isDigit
  if run = [] then none
  else
    let n := Int.ofNat (Nat.ofDigits 10 ((run.map Char.toNat).map (· - 48)).reverse)
    some (if neg then -n else n)

/-- gcm-style script lines 385-387: chunk size resolution.  The env value,
when defined, goes through parseInt and is used even when NaN (none);
otherwise a falsy env.vars value (undefined or 0, modelled as Option Int with
0 falsy) falls through to the documented default 10000. -/
def chunkSizeRes (envVal : Option JStr) (varsVal : Option Int) : Option Int :=
  match envVal with
  | some s => jsParseInt s
  | none =>
      match varsVal with
      | some n => if n = 0 then some 10000 else some n
      | none => some 10000

/-- gcm-style script lines 389-391: chunk ceiling resolution, default 4. -/
def maxChunksRes (envVal : Option JStr) (varsVal : Option Int) : Option Int :=
  match envVal with
  | some s => jsParseInt s
  | none =>
      match varsVal with
      | some n => if n = 0 then some 4 else some n
      | none => some 4

/-- JavaScript comparison n > m where m may be NaN: any comparison against
NaN is false, so a NaN ceiling disables the check. -/
def jsGtNat (n : Nat) (m : Option Int) : Bool :=
  match m with
  | none => false
  | some v => (n : Int) > v

/-- Abort of a gcm-style run: cancel(...) or a thrown prompt error. -/
inductive GcmAbort : Type
  | cancelled
  | thrown
deriving DecidableEq, Repr

/-- gcm-style script lines 470-491: the chunk loop throws on the first chunk
whose prompt errors (aborting the whole run), otherwise appends the
fence-or-text output (untrimmed in this variant) plus a newline.  Returns the
chunks handed to the prompt before the run stopped, and the message or the
abort. -/
def chunkLoop (processChunk : JStr → PromptResult) :
    List JStr → List JStr × Except GcmAbort JStr
  | [] => ([], .ok [])
  | chunk :: rest =>
      let res := processChunk chunk
      if res.error then ([chunk], .error .thrown)
      else
        let (log, out) := chunkLoop processChunk rest
        (chunk :: log, out.map fun m => (fenceOrText res ++ ['\n']) ++ m)

/-- Observable events of one gcm-style run. -/
structure Log : Type where
  confirmAsked : Bool
  processedChunks : List JStr
  summarizeInputs : List JStr
deriving DecidableEq, Repr

/-- gcm-style script lines 427-519 (single generation pass): the ceiling
check runs only when more than one chunk was produced, only when the chunk
count exceeds maxChunks (false for a NaN ceiling), and only in interactive
mode (auto skips it); a declined confirmation cancels the run.  Then the
chunk loop runs (throwing on any chunk error), the summary prompt runs for
multi-chunk runs (throwing on error, replacing the message by its plain
text), the message is trimmed, and an empty message stops without a commit
while a non-empty one is committed. -/
def run (chunks : List JStr) (auto : Bool) (maxChunks : Option Int)
    (confirmProceed : Bool) (processChunk summarize : JStr → PromptResult) :
    Log × Except GcmAbort (Option JStr) :=
  let asked := chunks.length > 1 ∧ jsGtNat chunks.length maxChunks ∧ ¬ auto
  if asked ∧ ¬ confirmProceed then
    (⟨true, [], []⟩, .error .cancelled)
  else
    let (plog, out) := chunkLoop processChunk chunks
    match out with
    | .error a => (⟨asked, plog, []⟩, .error a)
    | .ok message =>
        if chunks.length > 1 then
          let res := summarize message
          if res.error then (⟨asked, plog, [message]⟩, .error .thrown)
          else
            let final := jsTrim res.text
            (⟨asked, plog, [message]⟩,
              .ok (if final.length = 0 then none else some final))
        else
          let final := jsTrim message
          (⟨asked, plog, []⟩, .ok (if final.length = 0 then none else some final))

end Gcm

namespace MessageEnv

/-- Env-configured message variant, chunk size: envNumber(...) or-else 1000
(envNumber never returns NaN, so only the value 0 is falsy). -/
def chunkSizeRes (envVal : Option JStr) : Int :=
  let n := envNumber envVal
  if n = 0 then 1000 else n

/-- Env-configured message variant, chunk ceiling: envNumber(...) or-else 10. -/
def chunkMaxRes (envVal : Option JStr) : Int :=
  let n := envNumber envVal
  if n = 0 then 10 else n

end MessageEnv

/-- Concatenation of pieces each followed by a newline: the shape of the
message accumulator built by the message chunk loop. -/
def terminated (ps : List JStr) : JStr := (ps.map fun p => p ++ ['\n']).flatten

/-- Pieces joined with a single newline between consecutive pieces: the shape
the specification prescribes for the intermediate combined text. -/
def newlineSeparated : List JStr → JStr
  | [] => []
  | [p] => p
  | p :: rest => p ++ '\n' :: newlineSeparated rest

/-- A piece that is non-empty and carries no whitespace at either end, the
shape of every non-empty jsTrim image. -/
def TrimmedNE (p : JStr) : Prop :=
  (∃ c t, p = c :: t ∧ jsWs c = false) ∧ (∃ c t, p.reverse = c :: t ∧ jsWs c = false)

/-- Per-chunk oracle used by concrete runs: echoes the chunk as the model
text with no error. -/
def pcEcho : JStr → PromptResult := fun c => ⟨false, [], c⟩

/-- Per-chunk oracle of the specification scenario: chunk c2 fails, chunk c1
returns x and chunk c3 returns y. -/
def pcScenario : JStr → PromptResult := fun c =>
  if c = ("c1".toList) then ⟨false, [], ("x".toList)⟩
  else if c = ("c3".toList) then ⟨false, [], ("y".toList)⟩
  else ⟨true, [], []⟩

/-- Summary oracle that fails. -/
def smErr : JStr → PromptResult := fun _ => ⟨true, [], ("S".toList)⟩

/-- Summary oracle that succeeds with the fixed text S. -/
def smOkS : JStr → PromptResult := fun _ => ⟨false, [], ("S".toList)⟩

/-- Glob oracle that matches nothing (the glob branch is not taken in the
concrete runs below). -/
def mmNone : JStr → JStr → Bool := fun _ _ => false

/-- Git environment with an explicit env.files list and a different staged
list, for the precedence witness. -/
def gExplicit : GitEnv :=
  ⟨[.str ("a.ts".toList), .str ("b.md".toList)], [.str ("staged.ts".toList)],
    [.str ("all.ts".toList)], fun _ => [], some ("true".toList)⟩

/-- Git environment with empty explicit and staged sources and the auto-stage
flag enabled; git add -A leaves w.ts staged. -/
def gStageAll : GitEnv :=
  ⟨[], [], [.str ("w.ts".toList)], fun _ => [], some ("true".toList)⟩

/-- Git environment with empty explicit and staged sources and no auto-stage
flag. -/
def gNoFlag : GitEnv :=
  ⟨[], [], [.str ("w.ts".toList)], fun _ => [], none⟩

/-- Five single-letter chunks, one more than the declared ceiling of the
message flow. -/
def fiveChunks : List JStr :=
  [("a".toList), ("b".toList), ("c".toList), ("d".toList), ("e".toList)]

/-- The first element surviving dropWhile falsifies the predicate. -/
theorem dropWhile_head_false {α : Type} {p : α → Bool} :
    ∀ (l : List α) (a : α) (t : List α), l.dropWhile p = a :: t → p a = false
  | [], a, t, h => by simp [List.dropWhile] at h
  | b :: l, a, t, h => by
      by_cases hb : p b = true
      · rw [List.dropWhile_cons_of_pos hb] at h
        exact dropWhile_head_false l a t h
      · rw [List.dropWhile_cons_of_neg hb] at h
        cases h
        simpa using hb

/-- Left trim keeps a string whose head is not whitespace. -/
theorem jsTrimLeft_of_head (c : Char) (t : JStr) (hc : jsWs c = false) :
    jsTrimLeft (c :: t) = c :: t := by
  simp [jsTrimLeft, List.dropWhile_cons, hc]

/-- Right trim keeps a string whose last character is not whitespace. -/
theorem jsTrimRight_of_last (s : JStr) (c : Char) (t : JStr)
    (hrev : s.reverse = c :: t) (hc : jsWs c = false) : jsTrimRight s = s := by
  unfold jsTrimRight
  rw [hrev, List.dropWhile_cons, hc]
  simp only [Bool.false_eq_true, if_false, ← hrev, List.reverse_reverse]

/-- Right trim of a string ending in one newline and then a piece with a
non-whitespace last character removes exactly that newline. -/
theorem jsTrimRight_append_newline (s : JStr) (c : Char) (t : JStr)
    (hrev : s.reverse = c :: t) (hc : jsWs c = false) :
    jsTrimRight (s ++ ['\n']) = s := by
  have h2 : List.dropWhile jsWs ('\n' :: s.reverse) = s.reverse := by
    have hws : jsWs '\n' = true := by decide
    simp only [List.dropWhile_cons, hws, if_true]
    rw [hrev, List.dropWhile_cons, hc]
    simp
  unfold jsTrimRight
  have h0 : (s ++ ['\n']).reverse = '\n' :: s.reverse := by simp
  rw [h0, h2, List.reverse_reverse]

/-- A non-empty trimmed string starts with a non-whitespace character. -/
theorem jsTrim_head (s : JStr) (h : jsTrim s ≠ []) :
    ∃ c t, jsTrim s = c :: t ∧ jsWs c = false := by
  unfold jsTrim at *
  set u := jsTrimLeft s with hu
  have hsplit : u = jsTrimRight u ++ (u.reverse.takeWhile jsWs).reverse := by
    unfold jsTrimRight
    rw [← List.reverse_append, List.takeWhile_append_dropWhile, List.reverse_reverse]
  obtain ⟨c, t, hct⟩ : ∃ c t, jsTrimRight u = c :: t := by
    cases hfoo : jsTrimRight u with
    | nil => exact absurd hfoo h
    | cons c t => exact ⟨c, t, rfl⟩
  refine ⟨c, t, hct, ?_⟩
  obtain ⟨w, hw⟩ : ∃ w, u = c :: w := by
    refine ⟨t ++ (u.reverse.takeWhile jsWs).reverse, ?_⟩
    conv_lhs => rw [hsplit, hct]
    simp
  have hdw : List.dropWhile jsWs s = c :: w := by
    have h3 : u = List.dropWhile jsWs s := hu
    rw [← h3, hw]
  exact dropWhile_head_false s c w hdw

/-- A non-empty trimmed string ends with a non-whitespace character. -/
theorem jsTrim_last (s : JStr) (h : jsTrim s ≠ []) :
    ∃ c t, (jsTrim s).reverse = c :: t ∧ jsWs c = false := by
  unfold jsTrim at *
  set u := jsTrimLeft s with hu
  have hrev : (jsTrimRight u).reverse = u.reverse.dropWhile jsWs := by
    unfold jsTrimRight
    rw [List.reverse_reverse]
  obtain ⟨c, t, hct⟩ : ∃ c t, (jsTrimRight u).reverse = c :: t := by
    cases hfoo : (jsTrimRight u).reverse with
    | nil =>
        exfalso
        apply h
        have := congrArg List.reverse hfoo
        rwa [List.reverse_reverse] at this
    | cons c t => exact ⟨c, t, rfl⟩
  refine ⟨c, t, hct, ?_⟩
  rw [hrev] at hct
  exact dropWhile_head_false u.reverse c t hct

/-- Every non-empty jsTrim image is trimmed and non-empty. -/
theorem trimmedNE_jsTrim (s : JStr) (h : jsTrim s ≠ []) : TrimmedNE (jsTrim s) :=
  ⟨jsTrim_head s h, jsTrim_last s h⟩



/-- Unfolding of newlineSeparated on a cons with a non-empty tail. -/
theorem newlineSeparated_cons (p q : JStr) (rest : List JStr) :
    newlineSeparated (p :: q :: rest) = p ++ '\n' :: newlineSeparated (q :: rest) := by
  rfl

/-- The terminated concatenation of a non-empty piece list is its newline
separation followed by one final newline. -/
theorem terminated_cons (p : JStr) :
    ∀ ps : List JStr, terminated (p :: ps) = newlineSeparated (p :: ps) ++ ['\n'] := by
  intro ps
  induction ps generalizing p with
  | nil => simp [terminated, newlineSeparated]
  | cons q rest ih =>
      have h1 : terminated (p :: q :: rest) = (p ++ ['\n']) ++ terminated (q :: rest) := by
        simp [terminated]
      rw [h1, ih q, newlineSeparated_cons]
      simp

/-- The newline separation of a non-empty piece list ends in one of its pieces. -/
theorem newlineSeparated_last (p : JStr) :
    ∀ ps : List JStr, ∃ s q, newlineSeparated (p :: ps) = s ++ q ∧ q ∈ p :: ps := by
  intro ps
  induction ps generalizing p with
  | nil => exact ⟨[], p, by simp [newlineSeparated], by simp⟩
  | cons r rest ih =>
      obtain ⟨s, q, hs, hq⟩ := ih r
      refine ⟨p ++ '\n' :: s, q, ?_, ?_⟩
      · rw [newlineSeparated_cons, hs]
        simp
      · simpa using Or.inr hq

/-- The newline separation of a non-empty piece list starts with its first
piece. -/
theorem newlineSeparated_head (p : JStr) (ps : List JStr) :
    ∃ z, newlineSeparated (p :: ps) = p ++ z := by
  cases ps with
  | nil => exact ⟨[], by simp [newlineSeparated]⟩
  | cons q rest => exact ⟨'\n' :: newlineSeparated (q :: rest), newlineSeparated_cons p q rest⟩

/-- Key property of the message accumulator: trimming the terminated
concatenation of trimmed non-empty pieces yields exactly the pieces joined by
single newlines. -/
theorem jsTrim_terminated (ps : List JStr) (h : ∀ p ∈ ps, TrimmedNE p) :
    jsTrim (terminated ps) = newlineSeparated ps := by
  cases ps with
  | nil => rfl
  | cons p rest =>
      rw [terminated_cons]
      obtain ⟨⟨c0, t0, hp0, hws0⟩, _⟩ := h p (by simp)
      obtain ⟨z, hz⟩ := newlineSeparated_head p rest
      obtain ⟨s, q, hs, hq⟩ := newlineSeparated_last p rest
      obtain ⟨_, cq, tq, hrevq, hwsq⟩ := h q hq
      unfold jsTrim
      have hleft : jsTrimLeft (newlineSeparated (p :: rest) ++ ['\n'])
          = newlineSeparated (p :: rest) ++ ['\n'] := by
        rw [hz, hp0]
        have h4 : ((c0 :: t0) ++ z) ++ ['\n'] = c0 :: ((t0 ++ z) ++ ['\n']) := by simp
        rw [h4, jsTrimLeft_of_head c0 ((t0 ++ z) ++ ['\n']) hws0, ← h4]
      rw [hleft, hs]
      have hrev2 : (s ++ q).reverse = cq :: (tq ++ s.reverse) := by
        rw [List.reverse_append, hrevq]
        simp
      exact jsTrimRight_append_newline (s ++ q) cq (tq ++ s.reverse) hrev2 hwsq

namespace Message

/-- The chunk loop hands every chunk to the per-chunk prompt, in order:
failures never stop the loop and nothing is retried. -/
theorem chunkLoop_processed (pc : JStr → PromptResult) :
    ∀ chunks : List JStr, (chunkLoop pc chunks).processed = chunks := by
  intro chunks
  induction chunks with
  | nil => rfl
  | cons c rest ih => simp [chunkLoop, ih]

/-- The chunks recorded as failed are exactly those whose prompt errored. -/
theorem chunkLoop_errs (pc : JStr → PromptResult) :
    ∀ chunks : List JStr,
      (chunkLoop pc chunks).errs = chunks.filter fun c => (pc c).error := by
  intro chunks
  induction chunks with
  | nil => rfl
  | cons c rest ih =>
      by_cases hc : (pc c).error = true
      · simp [chunkLoop, ih, List.filter_cons, hc]
      · simp only [Bool.not_eq_true] at hc
        simp [chunkLoop, ih, List.filter_cons, hc]

/-- The message accumulator is the terminated concatenation of the trimmed
outputs of the successful chunks, in their original order. -/
theorem chunkLoop_message (pc : JStr → PromptResult) :
    ∀ chunks : List JStr,
      (chunkLoop pc chunks).message =
        terminated (((chunks.filter fun c => !(pc c).error).map
          fun c => jsTrim (fenceOrText (pc c)))) := by
  intro chunks
  induction chunks with
  | nil => rfl
  | cons c rest ih =>
      by_cases hc : (pc c).error = true
      · simp [chunkLoop, ih, List.filter_cons, hc]
      · simp only [Bool.not_eq_true] at hc
        simp [chunkLoop, ih, List.filter_cons, hc, terminated]

end Message

/-- C1: the claim says a chunk count above the ceiling makes the pipeline
fail fast before any chunk is processed, with interactive flows allowed to
ask for confirmation instead and non-interactive flows required to fail.
The code does not do this: the message flow declares maxChunks = 4 as a
safeguard but never checks it, so five chunks are all processed and the run
commits; the gcm flow skips its ceiling check whenever auto mode is on, so
the non-interactive path also processes all five chunks.  Only the
interactive gcm path asks for confirmation and cancels on decline. -/
theorem claim_C1_ceiling_unenforced :
    fiveChunks.length > Message.maxChunks ∧
    (Message.run fiveChunks pcEcho smOkS).1.processedChunks = fiveChunks ∧
    (Message.run fiveChunks pcEcho smOkS).2 = some ("S".toList) ∧
    (Gcm.run fiveChunks true (some 4) false pcEcho smOkS).1.confirmAsked = false ∧
    (Gcm.run fiveChunks true (some 4) false pcEcho smOkS).1.processedChunks = fiveChunks ∧
    (Gcm.run fiveChunks false (some 4) false pcEcho smOkS).2 = .error .cancelled := by
  exact ⟨by decide, rfl, rfl, rfl, rfl, rfl⟩

/-- C5: evaluation of getFiles when the explicit and staged sources are both
empty and the auto-stage flag is on.  Because the stageFiles() call is not
awaited, the filter step receives a pending Promise: with any extension
filter configured the call crashes with a TypeError instead of returning the
filtered staged set (first conjunct; the log shows the staging fallback did
run).  Without filters the Promise escapes through the identity branch and
the async return resolves it, accidentally yielding the unfiltered staged
set (second conjunct).  With the flag off, the resolution is the empty
nothing-to-do result, as claimed (third conjunct). -/
theorem claim_C5_autostage_bug :
    (getFiles mmNone gStageAll [("ts".toList)] [] none none =
      (⟨true, true⟩, .error ("TypeError: files.filter is not a function".toList))) ∧
    ((getFiles mmNone gStageAll [] [] none none).2 = .ok [.str ("w.ts".toList)]) ∧
    (getFiles mmNone gNoFlag [("ts".toList)] [] none none = (⟨true, false⟩, .ok [])) := by
  exact ⟨rfl, rfl, rfl⟩

/-- C3 counterexample: in the gcm flow a failing summary prompt throws, so a
two-chunk run whose chunks both succeed ends in an error instead of
returning the pre-summarization concatenation; no successful result of any
kind is returned. -/
theorem claim_C3_counterexample :
    ((Gcm.run [("c1".toList), ("c3".toList)] true (some 4) true pcScenario smErr).2 =
      .error .thrown) ∧
    ∀ m : Option JStr,
      (Gcm.run [("c1".toList), ("c3".toList)] true (some 4) true pcScenario smErr).2 ≠
        .ok m := by
  constructor
  · rfl
  · intro m h
    have h2 : (Except.error Gcm.GcmAbort.thrown : Except Gcm.GcmAbort (Option JStr)) =
        Except.ok m := Eq.trans (by rfl) h
    simp at h2

/-- Splitting a string that does not contain the separator yields a single
piece carrying the accumulator. -/
theorem jsSplitAux_not_mem (sep : Char) :
    ∀ (s acc : JStr), sep ∉ s → jsSplitAux sep s acc = [acc.reverse ++ s] := by
  intro s
  induction s with
  | nil => intro acc _; simp [jsSplitAux]
  | cons c rest ih =>
      intro acc h
      have hc : ¬ c = sep := by
        rintro rfl
        exact h (by simp)
      have hrest : sep ∉ rest := fun hm => h (by simp [hm])
      rw [jsSplitAux, if_neg hc, ih (c :: acc) hrest]
      simp

/-- The split never produces an empty list of pieces. -/
theorem jsSplitAux_ne_nil (sep : Char) :
    ∀ (s acc : JStr), jsSplitAux sep s acc ≠ [] := by
  intro s
  induction s with
  | nil => intro acc; simp [jsSplitAux]
  | cons c rest ih =>
      intro acc
      rw [jsSplitAux]
      by_cases hc : c = sep
      · simp [hc]
      · simpa [hc] using ih (c :: acc)

/-- Splitting a string that ends in the separator yields an empty final
piece. -/
theorem jsSplitAux_last_sep (sep : Char) :
    ∀ (s acc : JStr), (jsSplitAux sep (s ++ [sep]) acc).getLast? = some [] := by
  intro s
  induction s with
  | nil =>
      intro acc
      simp [jsSplitAux]
  | cons c rest ih =>
      intro acc
      rw [List.cons_append, jsSplitAux]
      by_cases hc : c = sep
      · rw [if_pos hc]
        cases hx : jsSplitAux sep (rest ++ [sep]) [] with
        | nil => exact absurd hx (jsSplitAux_ne_nil sep (rest ++ [sep]) [])
        | cons y ys =>
            rw [List.getLast?_cons_cons, ← hx]
            exact ih []
      · rw [if_neg hc]
        exact ih (c :: acc)

/-- A path without a dot has the whole lowercased path as its extension. -/
theorem jsExt_no_dot (p : JStr) (h : '.' ∉ p) : jsExt p = jsLower p := by
  unfold jsExt jsSplit
  rw [jsSplitAux_not_mem '.' p [] h]
  simp

/-- A path ending in a dot has the empty extension. -/
theorem jsExt_trailing_dot (p : JStr) : jsExt (p ++ ['.']) = [] := by
  unfold jsExt jsSplit
  rw [List.getLastD_eq_getLast?, jsSplitAux_last_sep '.' p []]
  simp [jsLower]

/-- C6: in the extension filter the deny set always wins (a file whose
extension is denied is never returned, whatever the allow set says), an
empty allow set passes every extension (only the deny test remains), and the
scenario from the specification resolves as stated. -/
theorem claim_C6_deny_wins :
    (∀ (files : List FileRef) (include_ exclude : List JStr) (f : FileRef),
      jsExt f.filename ∈ exclude → f ∉ filterFiles files include_ exclude) ∧
    (∀ (files : List FileRef) (exclude : List JStr),
      filterFiles files [] exclude =
        files.filter fun f => decide (jsExt f.filename ∉ exclude)) ∧
    filterFiles [.str ("a.ts".toList), .str ("b.md".toList)] [("ts".toList)] [] =
      [.str ("a.ts".toList)] := by
  refine ⟨?_, ?_, by decide⟩
  · intro files include_ exclude f hex hmem
    unfold filterFiles at hmem
    by_cases h0 : files.length = 0
    · simp [h0] at hmem
    · rw [if_neg h0] at hmem
      by_cases h1 : include_.length = 0 ∧ exclude.length = 0
      · obtain ⟨_, h2⟩ := h1
        rw [List.length_eq_zero] at h2
        subst h2
        simp at hex
      · rw [if_neg h1] at hmem
        rw [List.mem_filter] at hmem
        obtain ⟨_, hpred⟩ := hmem
        simp only [decide_eq_true_eq] at hpred
        obtain ⟨_, hnotex⟩ := hpred
        apply hnotex
        refine ⟨?_, hex⟩
        by_contra hlen
        simp only [not_lt, Nat.le_zero, List.length_eq_zero] at hlen
        subst hlen
        simp at hex
  · intro files exclude
    unfold filterFiles
    by_cases h0 : files.length = 0
    · rw [List.length_eq_zero] at h0
      subst h0
      simp
    · rw [if_neg h0]
      by_cases h1 : exclude.length = 0
      · rw [List.length_eq_zero] at h1
        subst h1
        rw [if_pos ⟨rfl, rfl⟩]
        refine (List.filter_eq_self.mpr ?_).symm
        intro f _
        simp
      · have h2 : ¬ ((List.length ([] : List JStr) = 0) ∧ exclude.length = 0) := by
          simp [h1]
        rw [if_neg h2]
        apply List.filter_congr
        intro f _
        have h3 : exclude.length > 0 := Nat.pos_of_ne_zero h1
        simp [h3]

/-- C7 counterexample: README contains no dot; the claim says such a path is
treated as extension "" and can never pass the non-empty allow set
containing only readme (the empty extension is not listed there), yet the
filter keeps it, because the code takes split(".").pop() which is the whole
name readme rather than "". -/
theorem claim_C7_counterexample :
    ('.' ∉ ("README".toList)) ∧
    (("".toList) ∉ [("readme".toList)]) ∧
    filterFiles [.str ("README".toList)] [("readme".toList)] [] =
      [.str ("README".toList)] := by
  exact ⟨by decide, by decide, by decide⟩

/-- C7 amended: a path with no dot is treated as having its entire lowercased
name as its extension; the empty extension arises exactly for the empty path
and for paths ending in a dot, and such an extension token participates in
allow/deny matching like any other. -/
theorem claim_C7_extension_semantics :
    (∀ p : JStr, '.' ∉ p → jsExt p = jsLower p) ∧
    (∀ p : JStr, jsExt (p ++ ['.']) = []) ∧
    jsExt [] = [] ∧
    filterFiles [.str ("README".toList)] [("readme".toList)] [] =
      [.str ("README".toList)] ∧
    filterFiles [.str ("weird.".toList)] [] [("".toList)] = [] := by
  exact ⟨jsExt_no_dot, jsExt_trailing_dot, by decide, by decide, by decide⟩

/-- C6 witness: a concrete denied extension is excluded even though the allow
set lists it. -/
theorem claim_C6_witness :
    FileRef.str ("a.ts".toList) ∉
      filterFiles [.str ("a.ts".toList)] [("ts".toList)] [("ts".toList)] :=
  claim_C6_deny_wins.1 [.str ("a.ts".toList)] [("ts".toList)] [("ts".toList)]
    (.str ("a.ts".toList)) (by decide)

/-- C7 witness: the amended extension semantics evaluated on README. -/
theorem claim_C7_witness : jsExt ("README".toList) = jsLower ("README".toList) :=
  claim_C7_extension_semantics.1 ("README".toList) (by decide)

/-- C4: with a non-empty explicit list the resolver returns exactly that list
after filtering (glob filtering when a glob pattern is configured, extension
filtering otherwise); the staged list is never read and the auto-stage
fallback never runs. -/
theorem claim_C4_explicit_precedence (mm : JStr → JStr → Bool) (g : GitEnv)
    (include_ exclude : List JStr) (ip ep : Option JStr)
    (hne : g.envFiles ≠ []) :
    getFiles mm g include_ exclude ip ep =
      (⟨false, false⟩,
        .ok (if strTruthy ip ∨ strTruthy ep then
              filterFilesByGlob mm g.envFiles ip ep
            else filterFiles g.envFiles include_ exclude)) := by
  unfold getFiles
  have h1 : getArray g.envFiles = some g.envFiles := by
    unfold getArray
    rw [if_neg]
    simpa [List.length_eq_zero] using hne
  simp only [h1]
  by_cases hg : strTruthy ip ∨ strTruthy ep
  · simp [hg, filterFilesByGlobVal, Except.map, awaitFilesVal]
  · simp [hg, filterFilesVal, Except.map, awaitFilesVal]

/-- C4 witness: concrete resolution with explicit files a.ts and b.md, a
different staged list, and the ts allow filter. -/
theorem claim_C4_witness :
    getFiles mmNone gExplicit [("ts".toList)] [] none none =
      (⟨false, false⟩, .ok [.str ("a.ts".toList)]) := by
  have h := claim_C4_explicit_precedence mmNone gExplicit
    [("ts".toList)] [] none none (by decide)
  rw [h]
  rfl

namespace Message

/-- The observable log of one message run: every chunk is processed, failures
are the chunks whose prompt errored, and the summary prompt receives the
accumulated message exactly when more than one chunk was produced. -/
theorem run_log (chunks : List JStr) (pc sm : JStr → PromptResult) :
    (run chunks pc sm).1 =
      ⟨chunks, chunks.filter fun c => (pc c).error,
        if chunks.length > 1 then [(chunkLoop pc chunks).message] else []⟩ := by
  unfold run
  by_cases h : chunks.length > 1
  · simp [h, chunkLoop_processed, chunkLoop_errs]
  · simp [h, chunkLoop_processed, chunkLoop_errs]

/-- The committed message of a multi-chunk run whose summary prompt fails is
the trimmed accumulated message, unless that is empty. -/
theorem run_result_sum_error (chunks : List JStr) (pc sm : JStr → PromptResult)
    (h : chunks.length > 1)
    (herr : (sm (chunkLoop pc chunks).message).error = true) :
    (run chunks pc sm).2 =
      (if (jsTrim (chunkLoop pc chunks).message).length = 0 then none
       else some (jsTrim (chunkLoop pc chunks).message)) := by
  unfold run
  simp [h, herr]

end Message

/-- C3 amended, message-flow half: when the summary prompt of a multi-chunk
message run fails, the run returns the trimmed pre-summarization
concatenation unchanged instead of failing (the gcm flow instead throws, see
the counterexample). -/
theorem claim_C3_message_fallback (chunks : List JStr) (pc sm : JStr → PromptResult)
    (hN : chunks.length > 1)
    (herr : (sm ((Message.chunkLoop pc chunks).message)).error = true)
    (hne : jsTrim ((Message.chunkLoop pc chunks).message) ≠ []) :
    (Message.run chunks pc sm).1.summarizeInputs =
      [(Message.chunkLoop pc chunks).message] ∧
    (Message.run chunks pc sm).2 =
      some (jsTrim ((Message.chunkLoop pc chunks).message)) := by
  constructor
  · rw [Message.run_log]
    simp [hN]
  · rw [Message.run_result_sum_error chunks pc sm hN herr]
    rw [if_neg]
    simpa [List.length_eq_zero] using hne

/-- C3 witness: the three-chunk scenario run with a failing summary prompt
returns the concatenation x newline y. -/
theorem claim_C3_witness :
    (Message.run [("c1".toList), ("c2".toList), ("c3".toList)] pcScenario smErr).2 =
      some (("x\ny".toList)) := by
  have h := claim_C3_message_fallback
    [("c1".toList), ("c2".toList), ("c3".toList)] pcScenario smErr
    (by decide) (by decide) (by decide)
  rw [h.2]
  rfl

/-- C8: a run over exactly one chunk hands that chunk to the per-chunk
prompt exactly once, never invokes the summary prompt, and commits the
single (trimmed) chunk output as the final result. -/
theorem claim_C8_single_chunk (c : JStr) (pc sm : JStr → PromptResult)
    (hok : (pc c).error = false)
    (hne : jsTrim (fenceOrText (pc c)) ≠ []) :
    (Message.run [c] pc sm).1.processedChunks = [c] ∧
    (Message.run [c] pc sm).1.summarizeInputs = [] ∧
    (Message.run [c] pc sm).2 = some (jsTrim (fenceOrText (pc c))) := by
  have hlog := Message.run_log [c] pc sm
  refine ⟨by rw [hlog], by rw [hlog]; rfl, ?_⟩
  have hmsg : (Message.chunkLoop pc [c]).message = jsTrim (fenceOrText (pc c)) ++ ['\n'] := by
    simp [Message.chunkLoop, hok]
  have htrim : jsTrim (jsTrim (fenceOrText (pc c)) ++ ['\n']) = jsTrim (fenceOrText (pc c)) := by
    have h2 := jsTrim_terminated [jsTrim (fenceOrText (pc c))] ?_
    · simpa [terminated, newlineSeparated] using h2
    · intro p hp
      rw [List.mem_singleton] at hp
      subst hp
      exact trimmedNE_jsTrim _ hne
  unfold Message.run
  simp only [List.length_singleton, gt_iff_lt, Nat.lt_irrefl, if_false]
  rw [hmsg, htrim]
  rw [if_neg]
  simpa [List.length_eq_zero] using hne

/-- C8 witness: a single chunk whose prompt echoes it is processed once, no
summary runs, and the echoed text is committed. -/
theorem claim_C8_witness :
    (Message.run [("c1".toList)] pcScenario smErr).2 = some (("x".toList)) := by
  have h := claim_C8_single_chunk ("c1".toList) pcScenario smErr (by decide) (by decide)
  rw [h.2.2]
  rfl

/-- C2: in a multi-chunk message run where the prompt fails on exactly one
chunk (bad) and succeeds on all others, every chunk is still handed to the
prompt exactly once and in order (no retry, no abort), the failure log
records exactly the failing chunk, the summary prompt receives the
accumulated concatenation of the successful outputs, and trimming that
concatenation (which is what the run falls back to and what a single-chunk
run would commit) is exactly the successful outputs in their original
relative order joined by single newlines. -/
theorem claim_C2_chunk_failure_isolation (pre post : List JStr) (bad : JStr)
    (pc sm : JStr → PromptResult)
    (hfail : (pc bad).error = true)
    (hok : ∀ c ∈ pre ++ post, (pc c).error = false)
    (hne : ∀ c ∈ pre ++ post, jsTrim (fenceOrText (pc c)) ≠ [])
    (hN : (pre ++ bad :: post).length > 1) :
    (Message.run (pre ++ bad :: post) pc sm).1.processedChunks = pre ++ bad :: post ∧
    (Message.run (pre ++ bad :: post) pc sm).1.chunkErrors = [bad] ∧
    (Message.run (pre ++ bad :: post) pc sm).1.summarizeInputs =
      [terminated ((pre ++ post).map fun c => jsTrim (fenceOrText (pc c)))] ∧
    jsTrim (terminated ((pre ++ post).map fun c => jsTrim (fenceOrText (pc c)))) =
      newlineSeparated ((pre ++ post).map fun c => jsTrim (fenceOrText (pc c))) := by
  have hsucc : (pre ++ bad :: post).filter (fun c => !(pc c).error) = pre ++ post := by
    rw [List.filter_append, List.filter_cons]
    have h1 : pre.filter (fun c => !(pc c).error) = pre := by
      rw [List.filter_eq_self]
      intro a ha
      simp [hok a (List.mem_append_left post ha)]
    have h2 : post.filter (fun c => !(pc c).error) = post := by
      rw [List.filter_eq_self]
      intro a ha
      simp [hok a (List.mem_append_right pre ha)]
    simp [h1, h2, hfail]
  have herrs : (pre ++ bad :: post).filter (fun c => (pc c).error) = [bad] := by
    rw [List.filter_append, List.filter_cons]
    have h1 : pre.filter (fun c => (pc c).error) = [] := by
      rw [List.filter_eq_nil_iff]
      intro a ha
      simp [hok a (List.mem_append_left post ha)]
    have h2 : post.filter (fun c => (pc c).error) = [] := by
      rw [List.filter_eq_nil_iff]
      intro a ha
      simp [hok a (List.mem_append_right pre ha)]
    simp [h1, h2, hfail]
  have hmsg : (Message.chunkLoop pc (pre ++ bad :: post)).message =
      terminated ((pre ++ post).map fun c => jsTrim (fenceOrText (pc c))) := by
    rw [Message.chunkLoop_message, hsucc]
  have hlog := Message.run_log (pre ++ bad :: post) pc sm
  refine ⟨by rw [hlog], by rw [hlog]; exact herrs, ?_, ?_⟩
  · rw [hlog]
    show (if (pre ++ bad :: post).length > 1
        then [(Message.chunkLoop pc (pre ++ bad :: post)).message] else []) = _
    rw [if_pos hN, hmsg]
  · apply jsTrim_terminated
    intro p hp
    rw [List.mem_map] at hp
    obtain ⟨c, hc, hpc⟩ := hp
    subst hpc
    exact trimmedNE_jsTrim _ (hne c hc)

/-- C2 witness: the specification scenario (three chunks, the second fails,
the first and third return x and y) evaluated through the theorem: the
combined trimmed text is x newline y. -/
theorem claim_C2_witness :
    (Message.run [("c1".toList), ("c2".toList), ("c3".toList)] pcScenario smErr).1.chunkErrors
      = [("c2".toList)] ∧
    jsTrim (terminated (([("c1".toList), ("c3".toList)]).map
      fun c => jsTrim (fenceOrText (pcScenario c)))) = ("x\ny".toList) := by
  have h := claim_C2_chunk_failure_isolation [("c1".toList)] [("c3".toList)]
    ("c2".toList) pcScenario smErr (by decide) (by decide) (by decide) (by decide)
  exact ⟨h.2.1, h.2.2.2.trans (by rfl)⟩

/-- C9 counterexample: the claim says non-positive or unparseable chunk
configuration falls back to the documented positive default and unparseable
configuration never crashes.  In the env-configured message variant a
negative chunk size value is propagated unchanged (-5, which is neither the
default 1000 nor positive); in the gcm variant an unparseable chunk size is
propagated as NaN instead of the default 10000, and parseBoolean throws for
the unparseable boolean value yes. -/
theorem claim_C9_counterexample :
    MessageEnv.chunkSizeRes (some ("-5".toList)) = -5 ∧
    ((-5 : Int) < 0 ∧ (-5 : Int) ≠ 1000) ∧
    Gcm.parseBoolean (some ("yes".toList)) = .error ("Invalid value".toList) ∧
    Gcm.chunkSizeRes (some ("abc".toList)) none = none ∧
    (none : Option Int) ≠ some 10000 := by
  exact ⟨by decide, ⟨by decide, by decide⟩, rfl, rfl, by decide⟩

/-- C9 amended: envNumber maps absent, empty and unparseable values to 0
without crashing; the env-configured message variant composes it with a
falsy-or-default step, so absent, empty, unparseable and zero values fall
back to the documented positive defaults (1000 and 10) while any non-zero
value, including a negative one, is propagated; the gcm variant propagates
the raw parseInt of a defined env value (including NaN), and its
parseBoolean throws on every value other than true and false. -/
theorem claim_C9_config_resolution :
    (envNumber none = 0) ∧
    (∀ s : JStr, jsToNumber s = none → envNumber (some s) = 0) ∧
    (∀ v : Option JStr, envNumber v = 0 →
      MessageEnv.chunkSizeRes v = 1000 ∧ MessageEnv.chunkMaxRes v = 10) ∧
    (∀ (v : Option JStr) (n : Int), envNumber v = n → n ≠ 0 →
      MessageEnv.chunkSizeRes v = n ∧ MessageEnv.chunkMaxRes v = n) ∧
    (∀ (s : JStr) (w : Option Int), Gcm.chunkSizeRes (some s) w = Gcm.jsParseInt s ∧
      Gcm.maxChunksRes (some s) w = Gcm.jsParseInt s) ∧
    (∀ v : Option JStr, v ≠ some ("true".toList) → v ≠ some ("false".toList) →
      Gcm.parseBoolean v = .error ("Invalid value".toList)) := by
  refine ⟨rfl, ?_, ?_, ?_, ?_, ?_⟩
  · intro s h
    simp [envNumber, h]
  · intro v h
    simp [MessageEnv.chunkSizeRes, MessageEnv.chunkMaxRes, h]
  · intro v n h hn
    simp [MessageEnv.chunkSizeRes, MessageEnv.chunkMaxRes, h, hn]
  · intro s w
    exact ⟨rfl, rfl⟩
  · intro v h1 h2
    unfold Gcm.parseBoolean
    rw [if_neg h1, if_neg h2]

/-- C9 witness: an unparseable chunk size in the env-configured message
variant resolves to the default 1000, and the gcm parseBoolean throws on the
value 1. -/
theorem claim_C9_witness :
    MessageEnv.chunkSizeRes (some ("oops".toList)) = 1000 ∧
    Gcm.parseBoolean (some ("1".toList)) = .error ("Invalid value".toList) := by
  exact ⟨(claim_C9_config_resolution.2.2.1 (some ("oops".toList)) (by decide)).1,
    claim_C9_config_resolution.2.2.2.2.2 (some ("1".toList)) (by decide) (by decide)⟩

/-- C10: envBoolean is true exactly for values whose lowercasing is the
string true; undefined, empty, 1 and yes all give false, TRUE gives true,
and the commit flow flags (stage, push-after-commit, deploy) are therefore
all disabled in an empty environment. -/
theorem claim_C10_envBoolean :
    (∀ v : Option JStr,
      envBoolean v = true ↔ ∃ s, v = some s ∧ jsLower s = ("true".toList)) ∧
    envBoolean none = false ∧
    envBoolean (some ("".toList)) = false ∧
    envBoolean (some ("1".toList)) = false ∧
    envBoolean (some ("yes".toList)) = false ∧
    envBoolean (some ("TRUE".toList)) = true ∧
    commitFlags (fun _ => none) = ⟨false, false, false⟩ := by
  refine ⟨?_, rfl, rfl, by decide, by decide, by decide, rfl⟩
  intro v
  constructor
  · intro h
    match v with
    | none => simp [envBoolean] at h
    | some s =>
        refine ⟨s, rfl, ?_⟩
        simp only [envBoolean] at h
        by_cases h0 : s.length = 0
        · simp [h0] at h
        · rw [if_neg h0] at h
          by_cases h1 : jsLower s = ("true".toList)
          · exact h1
          · rw [if_neg h1] at h
            by_cases h2 : jsLower s = ("false".toList) <;> simp [h2] at h
  · rintro ⟨s, rfl, hs⟩
    have h0 : ¬ s.length = 0 := by
      intro h0
      rw [List.length_eq_zero] at h0
      subst h0
      simp [jsLower] at hs
    simp only [envBoolean]
    rw [if_neg h0, if_pos hs]

/-- C10 witness: the characterization applied to the mixed-case value True. -/
theorem claim_C10_witness : envBoolean (some ("True".toList)) = true :=
  (claim_C10_envBoolean.1 (some ("True".toList))).mpr ⟨("True".toList), rfl, by decide⟩
